import Mathlib

/-!
# k8s-loki-ws-duration-tracker: the pod-to-log correlation pipeline

A shallow embedding of `main.go`: the `JobQueue` (pending queue plus the
ledger `loggedPods`), the namespace filter `isTargetNamespace`, the tail probe
`getTailLogsFromLoki`, and the poll loop of `main` (discovery pass, then drain
loop).

Modelling conventions.

* A Go `string` is its sequence of bytes (`GoString`); `len` is `List.length`,
  `s[:n]` is `sliceTo`, which fails where Go panics.
* A Go `map[string]bool` is an association list with at most one binding per
  key written by `mapSet`; `_, ok := m[k]` is `mapHas`.
* Methods with a pointer receiver take the `JobQueue` and return the new one.
* Everything the program learns from outside (the cluster listings, the
  outcome of each library call of a probe) is an input of the model; every
  value such a call can return is allowed.
* `log.Printf` output is not part of the state and is not modelled;
  `log.Fatalf` and a run-time panic end the run (`Halt`).
-/

namespace LokiTracker

/-! ## Go values -/

/-- A Go string: a sequence of bytes. -/
abbrev GoString := List UInt8

/-- The Go string literal with the given text (UTF-8 encoded). -/
def str (s : String) : GoString := s.data.flatMap String.utf8EncodeChar

/-- A Go `error` value, represented by its message. -/
abbrev GoError := GoString

/-- A `time.Time`, as nanoseconds elapsed since the zero `time.Time`. -/
abbrev Time := Int

/-- The slice expression `s[:n]`: `none` is the out-of-range panic. -/
def sliceTo (s : GoString) (n : Nat) : Option GoString :=
  if n ≤ s.length then some (s.take n) else none

/-- `fmt.Sprintf("%s/%s", a, b)`. -/
def sprintfSlash (a b : GoString) : GoString := a ++ str "/" ++ b

/-- A Go `map[string]bool`. -/
abbrev GoMap := List (GoString × Bool)

/-- The `ok` of `_, ok := m[k]`. -/
def mapHas (m : GoMap) (k : GoString) : Bool := (List.lookup k m).isSome

/-- The assignment `m[k] = v`. -/
def mapSet : GoMap → GoString → Bool → GoMap
  | [], k, v => [(k, v)]
  | (k1, v1) :: rest, k, v =>
    if k1 = k then (k, v) :: rest else (k1, v1) :: mapSet rest k v

/-! ## Data model (`main.go` lines 30-50) -/

/-- A decoded JSON value held in an `interface{}`. -/
inductive JsonValue where
  | null : JsonValue
  | bool : Bool → JsonValue
  | number : GoString → JsonValue
  | string : GoString → JsonValue
  | array : List JsonValue → JsonValue
  | object : List (GoString × JsonValue) → JsonValue

/-- One element of `LokiQueryTailResponse.Streams`. -/
structure LokiStream where
  Stream : List (GoString × GoString)
  Values : List (List JsonValue)

/-- One element of `LokiQueryTailResponse.DroppedEntries`. -/
structure LokiDroppedEntry where
  Labels : List (GoString × GoString)
  Timestamp : GoString

structure LokiQueryTailResponse where
  Streams : List LokiStream
  DroppedEntries : List LokiDroppedEntry

structure PodInfo where
  Namespace : GoString
  PodName : GoString
  StartTime : Time
deriving DecidableEq

/-- The zero value `PodInfo{}`. -/
def PodInfo.zero : PodInfo := ⟨[], [], 0⟩

/-- The queue and the ledger. `main` creates `loggedPods` with `make`, so the
map is never nil. -/
structure JobQueue where
  podInfoQueue : List PodInfo
  loggedPods : GoMap
deriving DecidableEq

/-! ## `JobQueue` methods (`main.go` lines 52-72) -/

def AddPodToQueue (jq : JobQueue) (podInfo : PodInfo) : JobQueue :=
  { jq with podInfoQueue := jq.podInfoQueue ++ [podInfo] }

/-- Returns the returned pair and the queue after the call. -/
def GetPodFromQueue (jq : JobQueue) : (PodInfo × Bool) × JobQueue :=
  if h : jq.podInfoQueue.length = 0 then
    ((PodInfo.zero, false), jq)
  else
    let podInfo := jq.podInfoQueue.get ⟨0, Nat.pos_of_ne_zero h⟩
    ((podInfo, true), { jq with podInfoQueue := jq.podInfoQueue.drop 1 })

/-- The identity key both ledger methods compute. -/
def podKey (podInfo : PodInfo) : GoString :=
  sprintfSlash podInfo.Namespace podInfo.PodName

def MarkPodAsLogged (jq : JobQueue) (podInfo : PodInfo) : JobQueue :=
  { jq with loggedPods := mapSet jq.loggedPods (podKey podInfo) true }

def IsPodLogged (jq : JobQueue) (podInfo : PodInfo) : Bool :=
  mapHas jq.loggedPods (podKey podInfo)

/-! ## `isTargetNamespace` (`main.go` lines 206-208) -/

/-- The result is `none` when the slice expression panics. `&&` evaluates its
right operand only when the left one is true. -/
def isTargetNamespace (namespaceName namespacePrefix : GoString) : Option Bool :=
  if namespaceName.length ≥ namespacePrefix.length then
    (sliceTo namespaceName namespacePrefix.length).map (fun s => decide (s = namespacePrefix))
  else
    some false

/-! ## `getTailLogsFromLoki` (`main.go` lines 74-116) -/

/-- What the library calls of one probe return: the error of `url.Parse`, of
`websocket.NewConfig` and of `websocket.DialConfig` (`none` is nil), and the
result of `websocket.JSON.Receive`. -/
structure Exchange where
  urlParse : Option GoError
  newConfig : Option GoError
  dialConfig : Option GoError
  receive : Except GoError LokiQueryTailResponse

/-- The returned error; `none` is nil. The addresses and `delayFor` only feed
the library calls, whose outcomes are given by the exchange. -/
def getTailLogsFromLoki (podInfo : PodInfo) (x : Exchange) : Option GoError :=
  match x.urlParse with
  | some err => some err
  | none =>
    match x.newConfig with
    | some err => some err
    | none =>
      match x.dialConfig with
      | some err => some err
      | none =>
        match x.receive with
        | .error err => some err
        | .ok lokiResp =>
          if lokiResp.Streams.length > 0 then
            none
          else
            some (str "no logs found for pod " ++ podInfo.PodName)

/-! ## The poll loop of `main` (`main.go` lines 156-203) -/

/-- How a run ends early: `log.Fatalf`, a run-time panic, or a drain loop that
was not given enough iterations. -/
inductive Halt where
  | fatal : GoString → Halt
  | panic : Halt
  | outOfFuel : Halt
deriving DecidableEq

/-- An element of `pods.Items`: `pod.Name` and `pod.Status.StartTime` (a
pointer, `none` when nil). -/
structure Pod where
  Name : GoString
  StartTime : Option Time
deriving DecidableEq

/-- An element of `namespaces.Items` together with what `Pods(Name).List`
returns for it when it is called. -/
structure NamespaceEntry where
  Name : GoString
  podList : Except GoError (List Pod)

/-- The loop over `pods.Items` (lines 172-185). -/
def discoverPods (namespaceName : GoString) : List Pod → JobQueue → JobQueue
  | [], jq => jq
  | pod :: rest, jq =>
    match pod.StartTime with
    | none => discoverPods namespaceName rest jq
    | some startTime =>
      if !IsPodLogged jq ⟨namespaceName, pod.Name, startTime⟩ then
        discoverPods namespaceName rest
          (AddPodToQueue jq ⟨namespaceName, pod.Name, startTime⟩)
      else
        discoverPods namespaceName rest jq

/-- The loop over `namespaces.Items` (lines 162-186). -/
def discoverNamespaces ( namespacePrefix : GoString) :
    List NamespaceEntry → JobQueue → Except Halt JobQueue
  | [], jq => .ok jq
  | ns :: rest, jq =>
    match isTargetNamespace ns.Name namespacePrefix with
    | none => .error Halt.panic
    | some false => discoverNamespaces namespacePrefix rest jq
    | some true =>
      match ns.podList with
      | .error err =>
        .error (Halt.fatal (str "Failed to list pods in namespace " ++ ns.Name ++ str ": " ++ err))
      | .ok pods =>
        discoverNamespaces namespacePrefix rest (discoverPods ns.Name pods jq)

/-- The discovery pass (lines 157-186). -/
def discovery ( namespacePrefix : GoString)
    (namespaces : Except GoError (List NamespaceEntry)) (jq : JobQueue) :
    Except Halt JobQueue :=
  match namespaces with
  | .error err => .error (Halt.fatal (str "Failed to list namespaces: " ++ err))
  | .ok items => discoverNamespaces namespacePrefix items jq

/-- One iteration of the drain loop (lines 189-199): the queue after the
iteration, and the record handed to the probe (`none` is the `break`). -/
def drainIteration (jq : JobQueue) (x : Exchange) : JobQueue × Option PodInfo :=
  match GetPodFromQueue jq with
  | ((_, false), jq1) => (jq1, none)
  | ((podInfo, true), jq1) =>
    match getTailLogsFromLoki podInfo x with
    | some _ => (jq1, some podInfo)
    | none => (MarkPodAsLogged jq1 podInfo, some podInfo)

/-- The drain loop (lines 188-200), run for at most `fuel` iterations.
`network i` is the exchange of the `i`-th probe still to come; `probed`
collects the records handed to `getTailLogsFromLoki`, in call order. `none`
means the iterations ran out before the `break`. -/
def drainLoop : Nat → (Nat → Exchange) → JobQueue → List PodInfo →
    Option (JobQueue × List PodInfo)
  | 0, _, _, _ => none
  | fuel + 1, network, jq, probed =>
    match drainIteration jq (network 0) with
    | (jq1, none) => some (jq1, probed)
    | (jq1, some podInfo) =>
      drainLoop fuel (fun i => network (i + 1)) jq1 (probed ++ [podInfo])

/-- What one poll cycle receives from outside: the result of
`Namespaces().List` (with the pod listing of each namespace) and the exchange
of each probe of the drain, by call number. -/
structure CycleInput where
  namespaces : Except GoError (List NamespaceEntry)
  network : Nat → Exchange

/-- What one poll cycle did: the queue state after the discovery pass, the
records that pass appended, the records probed by the drain in call order,
and the state at the end of the cycle. -/
structure CycleResult where
  discovered : JobQueue
  enqueued : List PodInfo
  probed : List PodInfo
  final : JobQueue

/-- One iteration of the outer `for` of `main` (lines 157-202). The drain
gets one iteration per pending record plus the one that breaks. -/
def pollCycle ( namespacePrefix : GoString) (c : CycleInput) (jq : JobQueue) :
    Except Halt CycleResult :=
  match discovery namespacePrefix c.namespaces jq with
  | .error h => .error h
  | .ok jq1 =>
    match drainLoop (jq1.podInfoQueue.length + 1) c.network jq1 [] with
    | none => .error Halt.outOfFuel
    | some (jq2, probed) =>
      .ok ⟨jq1, jq1.podInfoQueue.drop jq.podInfoQueue.length, probed, jq2⟩

/-- The outer `for` of `main`, over the inputs of finitely many cycles: the
results of the cycles, in order. -/
def runCycles ( namespacePrefix : GoString) :
    List CycleInput → JobQueue → Except Halt (List CycleResult)
  | [], _ => .ok []
  | c :: rest, jq =>
    match pollCycle namespacePrefix c jq with
    | .error h => .error h
    | .ok r =>
      match runCycles namespacePrefix rest r.final with
      | .error h => .error h
      | .ok rs => .ok (r :: rs)

/-- The state `main` starts the loop with (lines 152-154). -/
def initialJobQueue : JobQueue := ⟨[], []⟩

/-! ## Vocabulary of the specification -/

/-- A listing in which every call succeeded: the namespaces, each with its
pods. -/
abbrev Listing := List (GoString × List Pod)

/-- The listing as the results of the cluster calls. -/
def Listing.entries (l : Listing) : List NamespaceEntry :=
  l.map (fun e => ⟨e.1, .ok e.2⟩)

/-- The pods of a listing, each with the name of its namespace, in listing
order. -/
def Listing.pods (l : Listing) : List (GoString × Pod) :=
  l.flatMap (fun e => e.2.map (fun pod => (e.1, pod)))

/-- The record of a pod, when the pod qualifies: its namespace is accepted by
`isTargetNamespace`, it has a start time, and its identity key is not in the
ledger. -/
def qualifyingRecord ( namespacePrefix : GoString) (ledger : GoMap)
    (e : GoString × Pod) : Option PodInfo :=
  if isTargetNamespace e.1 namespacePrefix = some true then
    match e.2.StartTime with
    | none => none
    | some startTime =>
      if mapHas ledger (sprintfSlash e.1 e.2.Name) then none
      else some ⟨e.1, e.2.Name, startTime⟩
  else none

/-- The records of the qualifying pods of a listing, in listing order. -/
def qualifyingRecords ( namespacePrefix : GoString) (ledger : GoMap)
    (l : Listing) : List PodInfo :=
  l.pods.filterMap (qualifyingRecord namespacePrefix ledger)

/-- Calls `GetPodFromQueue` `n` times: the returned pairs in call order, and
the queue after the last call. -/
def getPods : Nat → JobQueue → List (PodInfo × Bool) × JobQueue
  | 0, jq => ([], jq)
  | n + 1, jq =>
    let r := GetPodFromQueue jq
    let rs := getPods n r.2
    (r.1 :: rs.1, rs.2)

/-- The ledger after a drain, as the specification words it: the records of
the queue whose probe succeeded are marked, in queue order. -/
def markSuccessful : List PodInfo → (Nat → Exchange) → GoMap → GoMap
  | [], _, ledger => ledger
  | r :: rest, network, ledger =>
    markSuccessful rest (fun i => network (i + 1))
      (if getTailLogsFromLoki r (network 0) = none then mapSet ledger (podKey r) true
       else ledger)

/-- The record the pod loop appends for a pod of namespace `namespaceName`,
if any. -/
def podRecord (ledger : GoMap) (namespaceName : GoString) (pod : Pod) : Option PodInfo :=
  match pod.StartTime with
  | none => none
  | some startTime =>
    if mapHas ledger (sprintfSlash namespaceName pod.Name) then none
    else some ⟨namespaceName, pod.Name, startTime⟩

/-! ## A concrete scenario

Namespace `logger-ns-a` has the pods `job-1` (started) and `job-2` (no start
time yet); namespace `other-ns` does not match the prefix `logger-ns`. -/

def demoListing : Listing :=
  [(str "logger-ns-a", [⟨str "job-1", some 100⟩, ⟨str "job-2", none⟩]),
   (str "other-ns", [⟨str "web", some 5⟩])]

/-- A later listing: `job-2` has started, `job-1` is still there. -/
def demoListingLater : Listing :=
  [(str "logger-ns-a", [⟨str "job-1", some 100⟩, ⟨str "job-2", some 250⟩])]

/-- An exchange in which the backend answers with one stream. -/
def oneStream : Exchange := ⟨none, none, none, .ok ⟨[⟨[], []⟩], []⟩⟩

/-- An exchange in which the backend answers with no stream. -/
def noStream : Exchange := ⟨none, none, none, .ok ⟨[], []⟩⟩

def demoJob1 : PodInfo := ⟨str "logger-ns-a", str "job-1", 100⟩

def demoJob2 : PodInfo := ⟨str "logger-ns-a", str "job-2", 250⟩

/-- The cycle over `demoListing` in which every probe succeeds, from the
initial state. -/
def demoConfirmed : CycleResult :=
  ⟨⟨[demoJob1], []⟩, [demoJob1], [demoJob1], ⟨[], [(str "logger-ns-a/job-1", true)]⟩⟩

/-- The cycle over `demoListingLater` after `demoConfirmed`, every probe
failing. -/
def demoLater : CycleResult :=
  ⟨⟨[demoJob2], [(str "logger-ns-a/job-1", true)]⟩, [demoJob2], [demoJob2],
    ⟨[], [(str "logger-ns-a/job-1", true)]⟩⟩

/-- The cycle over `demoListing` in which every probe fails, from the initial
state. -/
def demoFailed : CycleResult :=
  ⟨⟨[demoJob1], []⟩, [demoJob1], [demoJob1], ⟨[], []⟩⟩

/-- The cycle over `demoListing` in which every probe succeeds, from a state
in which `job-1` is already pending. -/
def demoPending : CycleResult :=
  ⟨⟨[demoJob1, demoJob1], []⟩, [demoJob1], [demoJob1, demoJob1],
    ⟨[], [(str "logger-ns-a/job-1", true)]⟩⟩

/-! ## Basic facts about the Go values -/

theorem str_slash : str "/" = [47] := by decide

theorem mapHas_nil (k1 : GoString) : mapHas [] k1 = false := rfl

theorem mapHas_cons (rest : GoMap) (k k1 : GoString) (v : Bool) :
    mapHas ((k, v) :: rest) k1 = (decide (k1 = k) || mapHas rest k1) := by
  unfold mapHas
  by_cases h : k1 = k
  · subst h
    simp [List.lookup]
  · have h3 : (k1 == k) = false := by simpa using h
    simp [List.lookup, h3, h]

theorem mapHas_mapSet (m : GoMap) (k k1 : GoString) (v : Bool) :
    mapHas (mapSet m k v) k1 = (decide (k1 = k) || mapHas m k1) := by
  induction m with
  | nil => simp [mapSet, mapHas_cons]
  | cons e rest ih =>
    obtain ⟨k2, v2⟩ := e
    by_cases h2 : k2 = k
    · subst h2
      simp [mapSet, mapHas_cons]
    · simp only [mapSet, h2, if_false, mapHas_cons, ih]
      cases decide (k1 = k2) <;> cases decide (k1 = k) <;> simp

theorem isTargetNamespace_eq (name pre : GoString) :
    isTargetNamespace name pre = some (decide (pre <+: name)) := by
  unfold isTargetNamespace sliceTo
  by_cases h : name.length ≥ pre.length
  · have h1 : pre.length ≤ name.length := h
    simp only [h, h1, if_true, Option.map_some', Option.some.injEq, decide_eq_decide]
    rw [List.prefix_iff_eq_take]
    exact eq_comm
  · have h2 : ¬ pre <+: name := fun hp => h hp.length_le
    simp [h, h2]

theorem append_cons_inj {c : UInt8} :
    ∀ (a b x y : GoString), c ∉ a → c ∉ b → a ++ c :: x = b ++ c :: y → a = b ∧ x = y
  | [], [], x, y, _, _, h => by simpa using h
  | [], d :: b, x, y, _, hb, h => by
    simp only [List.nil_append, List.cons_append, List.cons.injEq] at h
    exact absurd (h.1 ▸ List.mem_cons_self _ _) hb
  | d :: a, [], x, y, ha, _, h => by
    simp only [List.nil_append, List.cons_append, List.cons.injEq] at h
    exact absurd (h.1 ▸ List.mem_cons_self _ _) ha
  | d :: a, e :: b, x, y, ha, hb, h => by
    simp only [List.cons_append, List.cons.injEq] at h
    have ih := append_cons_inj a b x y (fun m => ha (List.mem_cons_of_mem _ m))
      (fun m => hb (List.mem_cons_of_mem _ m)) h.2
    exact ⟨by rw [h.1, ih.1], ih.2⟩

theorem podKey_eq (r : PodInfo) : podKey r = r.Namespace ++ 47 :: r.PodName := by
  simp [podKey, sprintfSlash, str_slash]

theorem getPods_queue (L : GoMap) :
    ∀ q : List PodInfo, getPods q.length ⟨q, L⟩ = (q.map (fun p => (p, true)), ⟨[], L⟩)
  | [] => rfl
  | p :: q => by
    have ih := getPods_queue L q
    simp [getPods, GetPodFromQueue, ih]

/-! ## The discovery pass -/

theorem discoverPods_eq (namespaceName : GoString) (L : GoMap) :
    ∀ (pods : List Pod) (q : List PodInfo),
      discoverPods namespaceName pods ⟨q, L⟩ =
        ⟨q ++ pods.filterMap (podRecord L namespaceName), L⟩
  | [], q => by simp [discoverPods]
  | pod :: rest, q => by
    obtain ⟨name, st⟩ := pod
    cases st with
    | none =>
      simp [discoverPods, podRecord, discoverPods_eq namespaceName L rest q]
    | some t =>
      by_cases h : mapHas L (sprintfSlash namespaceName name) = true
      · simp [discoverPods, podRecord, IsPodLogged, podKey, h,
          discoverPods_eq namespaceName L rest q]
      · simp [discoverPods, podRecord, IsPodLogged, podKey, h, AddPodToQueue,
          discoverPods_eq namespaceName L rest (q ++ [⟨namespaceName, name, t⟩])]

theorem qualifyingRecord_of_target {pre n : GoString} (L : GoMap)
    (h : isTargetNamespace n pre = some true) (pod : Pod) :
    qualifyingRecord pre L (n, pod) = podRecord L n pod := by
  simp [qualifyingRecord, podRecord, h]

theorem qualifyingRecord_of_not_target {pre n : GoString} (L : GoMap)
    (h : isTargetNamespace n pre = some false) (pod : Pod) :
    qualifyingRecord pre L (n, pod) = none := by
  simp [qualifyingRecord, h]

theorem qualifyingRecords_cons ( pre : GoString) (L : GoMap) (e : GoString × List Pod)
    (l : Listing) :
    qualifyingRecords pre L (e :: l) =
      (e.2.map (fun pod => (e.1, pod))).filterMap (qualifyingRecord pre L) ++
        qualifyingRecords pre L l := by
  simp [qualifyingRecords, Listing.pods, List.filterMap_append]

theorem discoverNamespaces_listing ( pre : GoString) (L : GoMap) :
    ∀ (l : Listing) (q : List PodInfo),
      discoverNamespaces pre l.entries ⟨q, L⟩ = .ok ⟨q ++ qualifyingRecords pre L l, L⟩
  | [], q => by simp [Listing.entries, discoverNamespaces, qualifyingRecords, Listing.pods]
  | e :: l, q => by
    obtain ⟨n, pods⟩ := e
    have hc : Listing.entries ((n, pods) :: l) = ⟨n, .ok pods⟩ :: Listing.entries l := by
      simp [Listing.entries]
    rw [hc, qualifyingRecords_cons]
    by_cases h : pre <+: n
    · have ht : isTargetNamespace n pre = some true := by simp [isTargetNamespace_eq, h]
      have hm : (pods.map (fun pod => (n, pod))).filterMap (qualifyingRecord pre L) =
          pods.filterMap (podRecord L n) := by
        rw [List.filterMap_map]
        congr 1
        funext pod
        exact qualifyingRecord_of_target L ht pod
      simp only [discoverNamespaces, ht, discoverPods_eq, hm]
      rw [discoverNamespaces_listing pre L l, List.append_assoc]
    · have hf : isTargetNamespace n pre = some false := by simp [isTargetNamespace_eq, h]
      have hm : (pods.map (fun pod => (n, pod))).filterMap (qualifyingRecord pre L) = [] := by
        rw [List.filterMap_map, List.filterMap_eq_nil_iff]
        intro pod _
        exact qualifyingRecord_of_not_target L hf pod
      simp only [discoverNamespaces, hf, hm, List.nil_append]
      rw [discoverNamespaces_listing pre L l]

theorem qualifyingRecord_some {pre : GoString} {L : GoMap} {e : GoString × Pod} {r : PodInfo}
    (h : qualifyingRecord pre L e = some r) :
    isTargetNamespace e.1 pre = some true ∧ e.2.StartTime = some r.StartTime ∧
      mapHas L (sprintfSlash e.1 e.2.Name) = false ∧ r.Namespace = e.1 ∧ r.PodName = e.2.Name := by
  obtain ⟨n, name, st⟩ := e
  unfold qualifyingRecord at h
  by_cases ht : isTargetNamespace n pre = some true
  · cases st with
    | none => simp [ht] at h
    | some t =>
      by_cases hm : mapHas L (sprintfSlash n name) = true
      · simp [ht, hm] at h
      · have hm2 : mapHas L (sprintfSlash n name) = false := by simpa using hm
        simp [ht, hm2] at h
        subst h
        simp [ht, hm2]
  · simp [ht] at h

theorem countP_identity_zero ( pre : GoString) (L : GoMap) (ps : List (GoString × Pod))
    (k : GoString × GoString) (hk : k ∉ ps.map (fun e => (e.1, e.2.Name))) :
    (ps.filterMap (qualifyingRecord pre L)).countP
      (fun r => decide ((r.Namespace, r.PodName) = k)) = 0 := by
  rw [List.countP_eq_zero]
  intro r hr
  rw [List.mem_filterMap] at hr
  obtain ⟨y, hy, hfy⟩ := hr
  have hq := qualifyingRecord_some hfy
  simp only [decide_eq_true_eq]
  intro hrk
  apply hk
  rw [List.mem_map]
  exact ⟨y, hy, by rw [← hrk, hq.2.2.2.1, hq.2.2.2.2]⟩

theorem countP_identity ( pre : GoString) (L : GoMap) :
    ∀ ps : List (GoString × Pod), (ps.map (fun e => (e.1, e.2.Name))).Nodup →
      ∀ e ∈ ps, (ps.filterMap (qualifyingRecord pre L)).countP
        (fun r => decide ((r.Namespace, r.PodName) = (e.1, e.2.Name))) =
          if (qualifyingRecord pre L e).isSome then 1 else 0
  | [], _, e, he => by cases he
  | x :: xs, hnd, e, he => by
    rw [List.map_cons, List.nodup_cons] at hnd
    obtain ⟨hx, hxs⟩ := hnd
    rcases List.mem_cons.mp he with rfl | hmem
    · have hz := countP_identity_zero pre L xs _ hx
      cases hf : qualifyingRecord pre L e with
      | none => simpa [List.filterMap_cons, hf] using hz
      | some r =>
        have hq := qualifyingRecord_some hf
        simp only [List.filterMap_cons, hf, List.countP_cons, hz, Option.isSome_some, if_true]
        simp [hq.2.2.2.1, hq.2.2.2.2]
    · have ih := countP_identity pre L xs hxs e hmem
      have hne : (x.1, x.2.Name) ≠ (e.1, e.2.Name) := fun h =>
        hx (h ▸ List.mem_map.mpr ⟨e, hmem, rfl⟩)
      cases hf : qualifyingRecord pre L x with
      | none => simpa [List.filterMap_cons, hf] using ih
      | some r =>
        have hq := qualifyingRecord_some hf
        have hr : ¬ (r.Namespace, r.PodName) = (e.1, e.2.Name) := by
          rw [hq.2.2.2.1, hq.2.2.2.2]; exact hne
        simp only [List.filterMap_cons, hf, List.countP_cons, ih, hr, decide_False]
        simp

/-! ## The claim about the discovery pass -/

/-- C2: for every ledger, pending queue `q` and listing whose calls succeed,
the discovery pass leaves the ledger unchanged and the queue equal to `q`
followed by the records of the qualifying pods (namespace accepted by
`isTargetNamespace`, start time present, key not in the ledger) in listing
order; a record is appended exactly when it comes from such a pod; when the
listing names each pod once, the number of appended records carrying the
identity of a listed pod is 1 if the pod qualifies and 0 otherwise. -/
theorem discovery_enqueues_qualifying ( pre : GoString) (L : GoMap) (q : List PodInfo)
    (l : Listing) :
    discovery pre (.ok l.entries) ⟨q, L⟩ = .ok ⟨q ++ qualifyingRecords pre L l, L⟩ ∧
    (∀ r : PodInfo, r ∈ qualifyingRecords pre L l ↔
      ∃ e ∈ l, ∃ pod ∈ e.2, isTargetNamespace e.1 pre = some true ∧
        pod.StartTime = some r.StartTime ∧
        mapHas L (e.1 ++ str "/" ++ pod.Name) = false ∧
        r.Namespace = e.1 ∧ r.PodName = pod.Name) ∧
    ((l.pods.map (fun e => (e.1, e.2.Name))).Nodup →
      ∀ e ∈ l, ∀ pod ∈ e.2,
        (qualifyingRecords pre L l).countP
            (fun r => decide (r.Namespace = e.1 ∧ r.PodName = pod.Name)) =
          if isTargetNamespace e.1 pre = some true ∧ pod.StartTime.isSome = true ∧
              mapHas L (e.1 ++ str "/" ++ pod.Name) = false
          then 1 else 0) := by
  refine ⟨?_, ?_, ?_⟩
  · simp only [discovery]
    exact discoverNamespaces_listing pre L l q
  · intro r
    simp only [qualifyingRecords, List.mem_filterMap, Listing.pods, List.mem_flatMap,
      List.mem_map]
    constructor
    · rintro ⟨x, ⟨e, he, pod, hpod, rfl⟩, hx⟩
      have hq := qualifyingRecord_some hx
      exact ⟨e, he, pod, hpod, hq.1, hq.2.1, hq.2.2.1, hq.2.2.2.1, hq.2.2.2.2⟩
    · rintro ⟨e, he, pod, hpod, ht, hs, hm, hn, hp⟩
      refine ⟨(e.1, pod), ⟨e, he, pod, hpod, rfl⟩, ?_⟩
      have hm2 : mapHas L (sprintfSlash e.1 pod.Name) = false := hm
      obtain ⟨rn, rp, rt⟩ := r
      simp only at hn hp hs
      subst hn hp
      simp [qualifyingRecord, ht, hs, hm2]
  · intro hnd e he pod hpod
    have hmem : (e.1, pod) ∈ l.pods := by
      simp only [Listing.pods, List.mem_flatMap, List.mem_map]
      exact ⟨e, he, pod, hpod, rfl⟩
    have hc := countP_identity pre L l.pods hnd (e.1, pod) hmem
    have hfun : (fun r : PodInfo => decide (r.Namespace = e.1 ∧ r.PodName = pod.Name)) =
        (fun r : PodInfo => decide ((r.Namespace, r.PodName) = (e.1, pod.Name))) := by
      funext r; simp
    rw [hfun]
    unfold qualifyingRecords
    rw [hc]
    have hm2 : sprintfSlash e.1 pod.Name = e.1 ++ str "/" ++ pod.Name := rfl
    by_cases ht : isTargetNamespace e.1 pre = some true
    · cases hs : pod.StartTime with
      | none => simp [qualifyingRecord, ht, hs]
      | some t =>
        by_cases hm : mapHas L (e.1 ++ str "/" ++ pod.Name) = true
        · simp [qualifyingRecord, ht, hs, hm2, hm]
        · simp [qualifyingRecord, ht, hs, hm2, hm]
    · simp [qualifyingRecord, ht]

/-! ## The drain loop -/

theorem drainIteration_nil (L : GoMap) (x : Exchange) :
    drainIteration ⟨[], L⟩ x = (⟨[], L⟩, none) := rfl

theorem drainIteration_cons (r : PodInfo) (rest : List PodInfo) (L : GoMap) (x : Exchange) :
    drainIteration ⟨r :: rest, L⟩ x =
      (⟨rest, if getTailLogsFromLoki r x = none then mapSet L (podKey r) true else L⟩,
        some r) := by
  cases h : getTailLogsFromLoki r x <;>
    simp [drainIteration, GetPodFromQueue, h, MarkPodAsLogged]

theorem drainLoop_eq :
    ∀ (q : List PodInfo) (extra : Nat) (network : Nat → Exchange) (L : GoMap)
      (probed : List PodInfo),
      drainLoop (q.length + 1 + extra) network ⟨q, L⟩ probed =
        some (⟨[], markSuccessful q network L⟩, probed ++ q)
  | [], extra, network, L, probed => by
    have h : ([] : List PodInfo).length + 1 + extra = extra + 1 := by simp; omega
    rw [h]
    simp [drainLoop, drainIteration_nil, markSuccessful]
  | r :: rest, extra, network, L, probed => by
    have h : (r :: rest).length + 1 + extra = (rest.length + 1 + extra) + 1 := by
      simp; omega
    rw [h]
    simp only [drainLoop, drainIteration_cons, markSuccessful]
    rw [drainLoop_eq rest extra]
    simp

theorem drainLoop_short :
    ∀ (q : List PodInfo) (fuel : Nat) (network : Nat → Exchange) (L : GoMap)
      (probed : List PodInfo), fuel ≤ q.length →
      drainLoop fuel network ⟨q, L⟩ probed = none
  | _, 0, _, _, _, _ => rfl
  | [], fuel + 1, _, _, _, h => by simp at h
  | r :: rest, fuel + 1, network, L, probed, h => by
    simp only [drainLoop, drainIteration_cons]
    exact drainLoop_short rest fuel _ _ _ (by simpa using h)

theorem mapHas_markSuccessful (k : GoString) :
    ∀ (q : List PodInfo) (network : Nat → Exchange) (L : GoMap),
      mapHas (markSuccessful q network L) k = true ↔
        (mapHas L k = true ∨
          ∃ (i : Nat) (r : PodInfo), q[i]? = some r ∧ podKey r = k ∧
            getTailLogsFromLoki r (network i) = none)
  | [], network, L => by simp [markSuccessful]
  | p :: rest, network, L => by
    simp only [markSuccessful]
    rw [mapHas_markSuccessful k rest]
    constructor
    · rintro (h | ⟨i, r, hi, hk, hs⟩)
      · by_cases hp : getTailLogsFromLoki p (network 0) = none
        · rw [if_pos hp, mapHas_mapSet] at h
          rcases Bool.or_eq_true_iff.mp h with h1 | h1
          · exact Or.inr ⟨0, p, by simp, (of_decide_eq_true h1).symm, hp⟩
          · exact Or.inl h1
        · rw [if_neg hp] at h
          exact Or.inl h
      · exact Or.inr ⟨i + 1, r, by simpa using hi, hk, hs⟩
    · rintro (h | ⟨i, r, hi, hk, hs⟩)
      · left
        by_cases hp : getTailLogsFromLoki p (network 0) = none
        · rw [if_pos hp, mapHas_mapSet, h]; simp
        · rw [if_neg hp]; exact h
      · cases i with
        | zero =>
          simp only [List.getElem?_cons_zero, Option.some.injEq] at hi
          subst hi
          left
          rw [if_pos hs, mapHas_mapSet, hk]
          simp
        | succ j =>
          exact Or.inr ⟨j, r, by simpa using hi, hk, hs⟩

/-! ## The claims about the drain loop -/

/-- C3: for every pending queue `[r1, ..., rn]`, ledger and probe outcomes,
the drain loop given at least `n + 1` iterations ends with the queue empty
after handing exactly the records `r1, ..., rn`, in that order, to the probe
(with `n` iterations or fewer it has not ended yet); so a poll cycle that
completes ends with an empty queue, and has probed exactly the queue its
discovery pass left. -/
theorem drain_fifo (q : List PodInfo) (L : GoMap) (network : Nat → Exchange) :
    (∀ extra : Nat, ∃ L1 : GoMap,
      drainLoop (q.length + 1 + extra) network ⟨q, L⟩ [] = some (⟨[], L1⟩, q)) ∧
    (∀ fuel : Nat, fuel ≤ q.length → drainLoop fuel network ⟨q, L⟩ [] = none) ∧
    (∀ ( pre : GoString) (c : CycleInput) (r : CycleResult),
      pollCycle pre c ⟨q, L⟩ = .ok r →
        r.final.podInfoQueue = [] ∧ r.probed = r.discovered.podInfoQueue) := by
  refine ⟨fun extra => ⟨markSuccessful q network L, ?_⟩, ?_, ?_⟩
  · simpa using drainLoop_eq q extra network L []
  · intro fuel h
    exact drainLoop_short q fuel network L [] h
  · intro pre c r h
    unfold pollCycle at h
    cases hd : discovery pre c.namespaces ⟨q, L⟩ with
    | error e => simp [hd] at h
    | ok jq1 =>
      obtain ⟨q1, L1⟩ := jq1
      have he := drainLoop_eq q1 0 c.network L1 []
      simp only [Nat.add_zero, List.nil_append] at he
      simp only [hd, he, Except.ok.injEq] at h
      subst h
      simp

/-- C4: after a full drain of queue `q` from ledger `L`, a key `k` is in the
ledger exactly when it was in `L` or some record of `q` with key `k` had a
successful probe (the `i`-th record is probed with the `i`-th exchange); one
iteration on a record whose probe fails leaves the ledger as it was, and one
whose probe succeeds only adds the key of that record. -/
theorem drain_ledger (q : List PodInfo) (L : GoMap) (network : Nat → Exchange) :
    (∃ L1 : GoMap, drainLoop (q.length + 1) network ⟨q, L⟩ [] = some (⟨[], L1⟩, q) ∧
      ∀ k : GoString, mapHas L1 k = true ↔
        (mapHas L k = true ∨
          ∃ (i : Nat) (r : PodInfo), q[i]? = some r ∧ podKey r = k ∧
            getTailLogsFromLoki r (network i) = none)) ∧
    (∀ (r : PodInfo) (rest : List PodInfo) (x : Exchange),
      (drainIteration ⟨r :: rest, L⟩ x).1.loggedPods =
        if getTailLogsFromLoki r x = none then mapSet L (podKey r) true else L) ∧
    (∀ (r : PodInfo) (rest : List PodInfo) (x : Exchange) (k : GoString),
      mapHas L k = true → mapHas (drainIteration ⟨r :: rest, L⟩ x).1.loggedPods k = true) := by
  refine ⟨⟨markSuccessful q network L, ?_, ?_⟩, ?_, ?_⟩
  · simpa using drainLoop_eq q 0 network L []
  · intro k
    exact mapHas_markSuccessful k q network L
  · intro r rest x
    rw [drainIteration_cons]
  · intro r rest x k hk
    rw [drainIteration_cons]
    by_cases hp : getTailLogsFromLoki r x = none
    · simp [hp, mapHas_mapSet, hk]
    · simp [hp, hk]

/-! ## Poll cycles -/

theorem podRecord_some {L : GoMap} {n : GoString} {pod : Pod} {p : PodInfo}
    (h : podRecord L n pod = some p) :
    mapHas L (podKey p) = false ∧ p.Namespace = n ∧ p.PodName = pod.Name ∧
      pod.StartTime = some p.StartTime := by
  obtain ⟨name, st⟩ := pod
  cases st with
  | none => simp [podRecord] at h
  | some t =>
    by_cases hm : mapHas L (sprintfSlash n name) = true
    · simp [podRecord, hm] at h
    · have hm2 : mapHas L (sprintfSlash n name) = false := by simpa using hm
      simp [podRecord, hm2] at h
      subst h
      simp [podKey, hm2]

theorem discoverNamespaces_ok ( pre : GoString) (L : GoMap) :
    ∀ (entries : List NamespaceEntry) (q : List PodInfo) (jq1 : JobQueue),
      discoverNamespaces pre entries ⟨q, L⟩ = .ok jq1 →
        jq1.loggedPods = L ∧
          ∃ added : List PodInfo, jq1.podInfoQueue = q ++ added ∧
            ∀ p ∈ added, mapHas L (podKey p) = false
  | [], q, jq1, h => by
    simp only [discoverNamespaces, Except.ok.injEq] at h
    subst h
    exact ⟨rfl, [], by simp, by simp⟩
  | ns :: rest, q, jq1, h => by
    obtain ⟨n, pl⟩ := ns
    unfold discoverNamespaces at h
    by_cases hp : pre <+: n
    · have ht : isTargetNamespace n pre = some true := by simp [isTargetNamespace_eq, hp]
      simp only [ht] at h
      cases pl with
      | error err => simp at h
      | ok pods =>
        simp only [discoverPods_eq] at h
        obtain ⟨hL, added, hq, ha⟩ := discoverNamespaces_ok pre L rest _ jq1 h
        refine ⟨hL, pods.filterMap (podRecord L n) ++ added, by rw [hq, List.append_assoc], ?_⟩
        intro p hmem
        rcases List.mem_append.mp hmem with h1 | h1
        · obtain ⟨pod, _, hpod⟩ := List.mem_filterMap.mp h1
          exact (podRecord_some hpod).1
        · exact ha p h1
    · have hf : isTargetNamespace n pre = some false := by simp [isTargetNamespace_eq, hp]
      simp only [hf] at h
      exact discoverNamespaces_ok pre L rest q jq1 h

theorem mapHas_markSuccessful_mono (k : GoString) (q : List PodInfo)
    (network : Nat → Exchange) (L : GoMap) (h : mapHas L k = true) :
    mapHas (markSuccessful q network L) k = true :=
  (mapHas_markSuccessful k q network L).mpr (Or.inl h)

theorem pollCycle_ok {pre : GoString} {c : CycleInput} {q : List PodInfo} {L : GoMap}
    {r : CycleResult} (h : pollCycle pre c ⟨q, L⟩ = .ok r) :
    r.final.podInfoQueue = [] ∧ r.discovered.podInfoQueue = q ++ r.enqueued ∧
      r.probed = q ++ r.enqueued ∧ (∀ p ∈ r.enqueued, mapHas L (podKey p) = false) ∧
      (∀ k : GoString, mapHas L k = true → mapHas r.final.loggedPods k = true) := by
  unfold pollCycle at h
  cases hd : discovery pre c.namespaces ⟨q, L⟩ with
  | error e => simp [hd] at h
  | ok jq1 =>
    obtain ⟨q1, L1⟩ := jq1
    have he := drainLoop_eq q1 0 c.network L1 []
    simp only [Nat.add_zero, List.nil_append] at he
    simp only [hd, he, Except.ok.injEq] at h
    subst h
    have hdn : discoverNamespaces pre (match c.namespaces with
        | .ok items => items
        | .error _ => []) ⟨q, L⟩ = .ok ⟨q1, L1⟩ := by
      unfold discovery at hd
      cases hn : c.namespaces with
      | error err => simp [hn] at hd
      | ok items => simpa [hn] using hd
    obtain ⟨hL, added, hq, ha⟩ := discoverNamespaces_ok pre L _ q _ hdn
    simp only at hL hq
    subst hL hq
    refine ⟨rfl, by simp, by simp, by simpa using ha, ?_⟩
    intro k hk
    exact mapHas_markSuccessful_mono k _ _ _ hk

theorem pollCycle_listing ( pre : GoString) (l : Listing) (network : Nat → Exchange)
    (q : List PodInfo) (L : GoMap) :
    pollCycle pre ⟨.ok l.entries, network⟩ ⟨q, L⟩ =
      .ok ⟨⟨q ++ qualifyingRecords pre L l, L⟩, qualifyingRecords pre L l,
        q ++ qualifyingRecords pre L l,
        ⟨[], markSuccessful (q ++ qualifyingRecords pre L l) network L⟩⟩ := by
  have he := drainLoop_eq (q ++ qualifyingRecords pre L l) 0 network L []
  simp only [Nat.add_zero, List.nil_append] at he
  simp only [pollCycle, discovery, discoverNamespaces_listing, he]
  simp

theorem pollCycle_ne_outOfFuel ( pre : GoString) (c : CycleInput) (jq : JobQueue) :
    pollCycle pre c jq ≠ .error Halt.outOfFuel := by
  obtain ⟨q, L⟩ := jq
  unfold pollCycle
  cases hd : discovery pre c.namespaces ⟨q, L⟩ with
  | error e =>
    simp only [ne_eq, Except.error.injEq]
    intro he
    subst he
    unfold discovery at hd
    cases hn : c.namespaces with
    | error err => simp [hn] at hd
    | ok items =>
      simp only [hn] at hd
      have key : ∀ (es : List NamespaceEntry) (q1 : List PodInfo),
          discoverNamespaces pre es ⟨q1, L⟩ ≠ .error Halt.outOfFuel := by
        intro es
        induction es with
        | nil => intro q1; simp [discoverNamespaces]
        | cons ns rest ih =>
          intro q1
          obtain ⟨n, pl⟩ := ns
          unfold discoverNamespaces
          cases hb : decide (pre <+: n) with
          | true =>
            simp only [isTargetNamespace_eq, hb]
            cases pl with
            | error err => simp
            | ok pods =>
              simp only [discoverPods_eq]
              exact ih _
          | false =>
            simp only [isTargetNamespace_eq, hb]
            exact ih _
      exact key items q hd
  | ok jq1 =>
    obtain ⟨q1, L1⟩ := jq1
    have he := drainLoop_eq q1 0 c.network L1 []
    simp only [Nat.add_zero] at he
    simp [he]

theorem mem_qualifyingRecords {pre : GoString} {L : GoMap} {l : Listing}
    {n name : GoString} {pods : List Pod} {t : Time}
    (hl : (n, pods) ∈ l) (hpod : (⟨name, some t⟩ : Pod) ∈ pods)
    (ht : isTargetNamespace n pre = some true) (hm : mapHas L (sprintfSlash n name) = false) :
    (⟨n, name, t⟩ : PodInfo) ∈ qualifyingRecords pre L l := by
  simp only [qualifyingRecords, List.mem_filterMap, Listing.pods, List.mem_flatMap,
    List.mem_map]
  exact ⟨(n, ⟨name, some t⟩), ⟨(n, pods), hl, ⟨name, some t⟩, hpod, rfl⟩,
    by simp [qualifyingRecord, ht, hm]⟩

theorem runCycles_invariant ( pre : GoString) (k : GoString) :
    ∀ (cs : List CycleInput) (jq : JobQueue) (rs : List CycleResult),
      jq.podInfoQueue = [] → mapHas jq.loggedPods k = true →
      runCycles pre cs jq = .ok rs →
      ∀ r ∈ rs, mapHas r.final.loggedPods k = true ∧ r.discovered.podInfoQueue = r.enqueued ∧
        r.probed = r.enqueued ∧ (∀ p ∈ r.enqueued, podKey p ≠ k) ∧ r.final.podInfoQueue = []
  | [], _, rs, _, _, h => by
    simp only [runCycles, Except.ok.injEq] at h
    subst h
    simp
  | c :: rest, jq, rs, hq, hk, h => by
    obtain ⟨q, L⟩ := jq
    simp only at hq hk
    subst hq
    unfold runCycles at h
    cases hc : pollCycle pre c ⟨[], L⟩ with
    | error e => simp [hc] at h
    | ok r1 =>
      obtain ⟨h1, h2, h3, h4, h5⟩ := pollCycle_ok hc
      cases hr : runCycles pre rest r1.final with
      | error e => simp [hc, hr] at h
      | ok rs1 =>
        simp only [hc, hr, Except.ok.injEq] at h
        subst h
        have ih := runCycles_invariant pre k rest r1.final rs1 h1 (h5 k hk) hr
        intro r hmem
        rcases List.mem_cons.mp hmem with rfl | hmem
        · refine ⟨h5 k hk, by simpa using h2, by simpa using h3, ?_, h1⟩
          intro p hp hpk
          have := h4 p hp
          rw [hpk, hk] at this
          cases this
        · exact ih r hmem

/-! ## The claims about the poll loop -/

/-- C1: once a key is in the ledger at the end of a cycle, then in every
later cycle (whatever the listings and probe outcomes) it is still in the
ledger at the end, the discovery pass appends no record with that key (the
queue it leaves holds exactly the records it appended), and the drain probes
no record with that key. -/
theorem ledger_permanent ( pre : GoString) (c0 : CycleInput) (jq0 : JobQueue)
    (r0 : CycleResult) (k : GoString)
    (h0 : pollCycle pre c0 jq0 = .ok r0) (hk : mapHas r0.final.loggedPods k = true)
    (cs : List CycleInput) (rs : List CycleResult)
    (hrun : runCycles pre cs r0.final = .ok rs) :
    ∀ r ∈ rs, mapHas r.final.loggedPods k = true ∧
      r.discovered.podInfoQueue = r.enqueued ∧
      (∀ p ∈ r.enqueued, p.Namespace ++ str "/" ++ p.PodName ≠ k) ∧
      (∀ p ∈ r.probed, p.Namespace ++ str "/" ++ p.PodName ≠ k) := by
  obtain ⟨q0, L0⟩ := jq0
  have hq := (pollCycle_ok h0).1
  intro r hmem
  obtain ⟨a, b, c, d, _⟩ := runCycles_invariant pre k cs r0.final rs hq hk hrun r hmem
  refine ⟨a, b, d, ?_⟩
  rw [c]
  exact d

/-- C5: a record probed without success in cycle `n` whose key is not in the
ledger at the end of that cycle: when the listing of cycle `n + 1` (all calls
succeeding) still has that pod, with a start time, in a namespace accepted by
`isTargetNamespace`, cycle `n + 1` completes, its discovery pass appends the
record of the pod and its drain probes that record. -/
theorem failed_pod_retried ( pre : GoString) (c0 : CycleInput) (jq0 : JobQueue)
    (r0 : CycleResult) (h0 : pollCycle pre c0 jq0 = .ok r0)
    (p : PodInfo) (i : Nat) (_hp : r0.probed[i]? = some p)
    (_hfail : (getTailLogsFromLoki p (c0.network i)).isSome = true)
    (hk : IsPodLogged r0.final p = false)
    (l : Listing) (network : Nat → Exchange) (pods : List Pod) (t : Time)
    (hl : (p.Namespace, pods) ∈ l) (hpod : (⟨p.PodName, some t⟩ : Pod) ∈ pods)
    (ht : isTargetNamespace p.Namespace pre = some true) :
    ∃ r1 : CycleResult, pollCycle pre ⟨.ok l.entries, network⟩ r0.final = .ok r1 ∧
      (⟨p.Namespace, p.PodName, t⟩ : PodInfo) ∈ r1.enqueued ∧
      (⟨p.Namespace, p.PodName, t⟩ : PodInfo) ∈ r1.probed := by
  obtain ⟨q0, L0⟩ := jq0
  have hq := (pollCycle_ok h0).1
  have hfin : r0.final = ⟨[], r0.final.loggedPods⟩ := by
    cases hf : r0.final with
    | mk qf Lf =>
      rw [hf] at hq
      simp only at hq
      rw [hq]
  have hm : (⟨p.Namespace, p.PodName, t⟩ : PodInfo) ∈
      qualifyingRecords pre r0.final.loggedPods l :=
    mem_qualifyingRecords hl hpod ht hk
  rw [hfin]
  exact ⟨_, pollCycle_listing pre l network [] _, hm, by simpa using hm⟩

/-! ## The claims about the leaf operations -/

/-- C6: `isTargetNamespace(name, prefix)` never panics and is true exactly when
`prefix` is a byte-wise prefix of `name` (`name = prefix ++ s` for some `s`);
it is false for every prefix longer than `name`, true for
("logger-ns-42", "logger-ns"), false for ("other-ns", "logger-ns") and
("log", "logger-ns"). -/
theorem isTargetNamespace_spec (name pre : GoString) :
    (isTargetNamespace name pre = some true ↔ ∃ s, name = pre ++ s) ∧
    (isTargetNamespace name pre = some false ↔ ¬ ∃ s, name = pre ++ s) ∧
    (∀ (c : UInt8) (s : GoString), isTargetNamespace name (name ++ c :: s) = some false) ∧
    isTargetNamespace (str "logger-ns-42") (str "logger-ns") = some true ∧
    isTargetNamespace (str "other-ns") (str "logger-ns") = some false ∧
    isTargetNamespace (str "log") (str "logger-ns") = some false := by
  have key : ∀ n p : GoString, (p <+: n) ↔ ∃ s, n = p ++ s := fun n p =>
    ⟨fun ⟨s, hs⟩ => ⟨s, hs.symm⟩, fun ⟨s, hs⟩ => ⟨s, hs.symm⟩⟩
  refine ⟨?_, ?_, ?_, by decide, by decide, by decide⟩
  · rw [isTargetNamespace_eq, ← key]; simp
  · rw [isTargetNamespace_eq, ← key]; simp
  · intro c s
    rw [isTargetNamespace_eq]
    have h : ¬ (name ++ c :: s) <+: name := fun hp => by
      have := hp.length_le
      simp at this
    simp [h]

/-- C7: `getTailLogsFromLoki` returns nil exactly when no library call failed
and the received response has at least one stream, whatever the streams and
`dropped_entries` hold; a response with zero streams gives a non-nil error, as
a failed receive, dial, config or URL parse does. -/
theorem getTailLogsFromLoki_nil_iff (podInfo : PodInfo) (x : Exchange) :
    (getTailLogsFromLoki podInfo x = none ↔
      x.urlParse = none ∧ x.newConfig = none ∧ x.dialConfig = none ∧
        ∃ lokiResp, x.receive = .ok lokiResp ∧ lokiResp.Streams.length ≥ 1) ∧
    (∀ (s : LokiStream) (streams : List LokiStream) (dropped : List LokiDroppedEntry),
      getTailLogsFromLoki podInfo ⟨none, none, none, .ok ⟨s :: streams, dropped⟩⟩ = none) ∧
    (∀ dropped : List LokiDroppedEntry,
      (getTailLogsFromLoki podInfo ⟨none, none, none, .ok ⟨[], dropped⟩⟩).isSome = true) ∧
    (∀ (a b c : Option GoError) (err : GoError),
      getTailLogsFromLoki podInfo ⟨a, b, c, .error err⟩ = some (a.getD (b.getD (c.getD err)))) ∧
    (∀ (err : GoError) (b c : Option GoError) (r : Except GoError LokiQueryTailResponse),
      getTailLogsFromLoki podInfo ⟨some err, b, c, r⟩ = some err) ∧
    (∀ (err : GoError) (c : Option GoError) (r : Except GoError LokiQueryTailResponse),
      getTailLogsFromLoki podInfo ⟨none, some err, c, r⟩ = some err) ∧
    (∀ (err : GoError) (r : Except GoError LokiQueryTailResponse),
      getTailLogsFromLoki podInfo ⟨none, none, some err, r⟩ = some err) := by
  refine ⟨?_, ?_, ?_, ?_, ?_, ?_, ?_⟩
  · obtain ⟨a, b, c, r⟩ := x
    cases a <;> cases b <;> cases c <;> cases r <;>
      simp [getTailLogsFromLoki, Nat.pos_iff_ne_zero, Nat.one_le_iff_ne_zero]
  · intro s streams dropped
    simp [getTailLogsFromLoki]
  · intro dropped
    simp [getTailLogsFromLoki]
  · intro a b c err
    cases a <;> cases b <;> cases c <;> simp [getTailLogsFromLoki]
  · intro err b c r
    simp [getTailLogsFromLoki]
  · intro err c r
    simp [getTailLogsFromLoki]
  · intro err r
    simp [getTailLogsFromLoki]

/-- C8: after `AddPodToQueue(r)` on a queue `q`, the next `|q|+1` calls of
`GetPodFromQueue` return the elements of `q` in order and then `r`, each with
present = true; the call after that returns the zero `PodInfo` with present =
false and changes neither queue nor ledger; a record already pending gets a
second copy; neither queue operation changes the ledger. -/
theorem queue_fifo (q : List PodInfo) (L : GoMap) (r : PodInfo) :
    getPods (q.length + 1) (AddPodToQueue ⟨q, L⟩ r) =
      ((q ++ [r]).map (fun p => (p, true)), ⟨[], L⟩) ∧
    GetPodFromQueue (getPods (q.length + 1) (AddPodToQueue ⟨q, L⟩ r)).2 =
      ((PodInfo.zero, false), (getPods (q.length + 1) (AddPodToQueue ⟨q, L⟩ r)).2) ∧
    GetPodFromQueue ⟨[], L⟩ = ((PodInfo.zero, false), ⟨[], L⟩) ∧
    (AddPodToQueue ⟨q, L⟩ r).podInfoQueue.count r = q.count r + 1 ∧
    (AddPodToQueue ⟨q, L⟩ r).loggedPods = L ∧
    (GetPodFromQueue ⟨q, L⟩).2.loggedPods = L := by
  have h : getPods (q.length + 1) (AddPodToQueue ⟨q, L⟩ r) =
      ((q ++ [r]).map (fun p => (p, true)), ⟨[], L⟩) := by
    have := getPods_queue L (q ++ [r])
    simpa [AddPodToQueue] using this
  refine ⟨h, ?_, rfl, ?_, rfl, ?_⟩
  · rw [h]; rfl
  · simp [AddPodToQueue]
  · cases q <;> simp [GetPodFromQueue]

/-- C9: after `MarkPodAsLogged(r)`, `IsPodLogged(r1)` is true exactly when it
was true before or the key `Namespace + "/" + PodName` of `r1` equals that of
`r`; neither method looks at `StartTime`; `MarkPodAsLogged` leaves the pending
queue unchanged. -/
theorem isPodLogged_markPodAsLogged (jq : JobQueue) (r r1 : PodInfo) :
    IsPodLogged (MarkPodAsLogged jq r) r1 =
      (IsPodLogged jq r1 ||
        decide (r1.Namespace ++ str "/" ++ r1.PodName = r.Namespace ++ str "/" ++ r.PodName)) ∧
    (∀ t : Time, IsPodLogged jq ⟨r1.Namespace, r1.PodName, t⟩ = IsPodLogged jq r1) ∧
    (∀ t : Time, IsPodLogged (MarkPodAsLogged jq ⟨r.Namespace, r.PodName, t⟩) r1 =
      IsPodLogged (MarkPodAsLogged jq r) r1) ∧
    (MarkPodAsLogged jq r).podInfoQueue = jq.podInfoQueue := by
  refine ⟨?_, fun _ => rfl, fun _ => rfl, rfl⟩
  simp only [IsPodLogged, MarkPodAsLogged, mapHas_mapSet, podKey, sprintfSlash]
  rw [Bool.or_comm]

/-- C10: for records whose `Namespace` holds no "/" byte, the identity keys
are equal exactly when the records have the same `Namespace` and the same
`PodName`; so marking one record never changes `IsPodLogged` of a record with
another (`Namespace`, `PodName`) pair. -/
theorem podKey_injective (r1 r2 : PodInfo)
    (h1 : ∀ c ∈ str "/", c ∉ r1.Namespace) (h2 : ∀ c ∈ str "/", c ∉ r2.Namespace) :
    (r1.Namespace ++ str "/" ++ r1.PodName = r2.Namespace ++ str "/" ++ r2.PodName ↔
      r1.Namespace = r2.Namespace ∧ r1.PodName = r2.PodName) ∧
    ∀ jq : JobQueue, ¬ (r1.Namespace = r2.Namespace ∧ r1.PodName = r2.PodName) →
      IsPodLogged (MarkPodAsLogged jq r1) r2 = IsPodLogged jq r2 := by
  rw [str_slash] at h1 h2
  have e1 := h1 47 (by simp)
  have e2 := h2 47 (by simp)
  have hk : podKey r1 = podKey r2 ↔
      r1.Namespace = r2.Namespace ∧ r1.PodName = r2.PodName := by
    rw [podKey_eq, podKey_eq]
    constructor
    · exact append_cons_inj _ _ _ _ e1 e2
    · rintro ⟨a, b⟩; rw [a, b]
  refine ⟨by simpa [podKey, sprintfSlash] using hk, ?_⟩
  intro jq hne
  have hk2 : ¬ podKey r2 = podKey r1 := fun e => hne (hk.mp e.symm)
  simp [IsPodLogged, MarkPodAsLogged, mapHas_mapSet, hk2]

/-- Witness of C10: with "ns-a"/"job-1" marked in the empty ledger, the record
"ns-a"/"job-2" is still not logged. -/
theorem podKey_injective_witness :
    (∀ c ∈ str "/", c ∉ str "ns-a") ∧
    ¬ (str "ns-a" = str "ns-a" ∧ str "job-1" = str "job-2") ∧
    IsPodLogged (MarkPodAsLogged ⟨[], []⟩ ⟨str "ns-a", str "job-1", 5⟩)
      ⟨str "ns-a", str "job-2", 7⟩ = IsPodLogged ⟨[], []⟩ ⟨str "ns-a", str "job-2", 7⟩ :=
  ⟨by decide, by decide,
    (podKey_injective ⟨str "ns-a", str "job-1", 5⟩ ⟨str "ns-a", str "job-2", 7⟩
      (by decide) (by decide)).2 ⟨[], []⟩ (by decide)⟩

/-! ## The claims at the concrete scenario -/

/-- Witness of C1: `logger-ns-a/job-1` is confirmed in the first cycle; the
next cycle lists it again, yet appends and probes only `job-2`. -/
theorem ledger_permanent_witness :
    pollCycle (str "logger-ns") ⟨.ok demoListing.entries, fun _ => oneStream⟩ initialJobQueue =
      .ok demoConfirmed ∧
    mapHas demoConfirmed.final.loggedPods (str "logger-ns-a/job-1") = true ∧
    runCycles (str "logger-ns") [⟨.ok demoListingLater.entries, fun _ => noStream⟩]
      demoConfirmed.final = .ok [demoLater] ∧
    (mapHas demoLater.final.loggedPods (str "logger-ns-a/job-1") = true ∧
      demoLater.discovered.podInfoQueue = demoLater.enqueued ∧
      (∀ p ∈ demoLater.enqueued,
        p.Namespace ++ str "/" ++ p.PodName ≠ str "logger-ns-a/job-1") ∧
      (∀ p ∈ demoLater.probed,
        p.Namespace ++ str "/" ++ p.PodName ≠ str "logger-ns-a/job-1")) :=
  ⟨rfl, by decide, rfl,
    ledger_permanent (str "logger-ns") ⟨.ok demoListing.entries, fun _ => oneStream⟩
      initialJobQueue demoConfirmed (str "logger-ns-a/job-1") rfl (by decide)
      [⟨.ok demoListingLater.entries, fun _ => noStream⟩] [demoLater] rfl
      demoLater (List.mem_singleton_self _)⟩

/-- Witness of C2: `demoListing` names each pod once; `job-1` qualifies and is
appended once. -/
theorem discovery_enqueues_qualifying_witness :
    (demoListing.pods.map (fun e => (e.1, e.2.Name))).Nodup ∧
    (qualifyingRecords (str "logger-ns") [] demoListing).countP
        (fun r => decide (r.Namespace = str "logger-ns-a" ∧ r.PodName = str "job-1")) =
      if isTargetNamespace (str "logger-ns-a") (str "logger-ns") = some true ∧
          (some (100 : Time)).isSome = true ∧
          mapHas [] (str "logger-ns-a" ++ str "/" ++ str "job-1") = false
      then 1 else 0 :=
  ⟨by decide,
    (discovery_enqueues_qualifying (str "logger-ns") [] [] demoListing).2.2 (by decide)
      (str "logger-ns-a", [⟨str "job-1", some 100⟩, ⟨str "job-2", none⟩]) (by decide)
      ⟨str "job-1", some 100⟩ (by decide)⟩

/-- Witness of C3: one iteration does not end the drain of a one-record
queue; the cycle over `demoListing` from that queue completes, with the queue
empty and the two pending records probed in queue order. -/
theorem drain_fifo_witness :
    drainLoop 1 (fun _ => oneStream) ⟨[demoJob1], []⟩ [] = none ∧
    pollCycle (str "logger-ns") ⟨.ok demoListing.entries, fun _ => oneStream⟩
      ⟨[demoJob1], []⟩ = .ok demoPending ∧
    demoPending.final.podInfoQueue = [] ∧
    demoPending.probed = demoPending.discovered.podInfoQueue :=
  ⟨(drain_fifo [demoJob1] [] (fun _ => oneStream)).2.1 1 (by decide), rfl,
    (drain_fifo [demoJob1] [] (fun _ => oneStream)).2.2 (str "logger-ns")
      ⟨.ok demoListing.entries, fun _ => oneStream⟩ demoPending rfl⟩

/-- Witness of C4: with `logger-ns-a/job-1` in the ledger, an iteration whose
probe of `job-2` fails keeps that key. -/
theorem drain_ledger_witness :
    mapHas [(str "logger-ns-a/job-1", true)] (str "logger-ns-a/job-1") = true ∧
    mapHas (drainIteration ⟨[demoJob2], [(str "logger-ns-a/job-1", true)]⟩
      noStream).1.loggedPods (str "logger-ns-a/job-1") = true :=
  ⟨by decide, (drain_ledger [demoJob2] [(str "logger-ns-a/job-1", true)]
    (fun _ => noStream)).2.2 demoJob2 [] noStream (str "logger-ns-a/job-1") (by decide)⟩

/-- Witness of C5: the probe of `job-1` fails in the first cycle; the next
cycle lists `job-1` again, appends its record and probes it. -/
theorem failed_pod_retried_witness :
    pollCycle (str "logger-ns") ⟨.ok demoListing.entries, fun _ => noStream⟩ initialJobQueue =
      .ok demoFailed ∧
    demoFailed.probed[0]? = some demoJob1 ∧
    (getTailLogsFromLoki demoJob1 noStream).isSome = true ∧
    IsPodLogged demoFailed.final demoJob1 = false ∧
    ∃ r1 : CycleResult,
      pollCycle (str "logger-ns") ⟨.ok demoListingLater.entries, fun _ => oneStream⟩
        demoFailed.final = .ok r1 ∧
      (⟨str "logger-ns-a", str "job-1", 100⟩ : PodInfo) ∈ r1.enqueued ∧
      (⟨str "logger-ns-a", str "job-1", 100⟩ : PodInfo) ∈ r1.probed :=
  ⟨rfl, rfl, rfl, by decide,
    failed_pod_retried (str "logger-ns") ⟨.ok demoListing.entries, fun _ => noStream⟩
      initialJobQueue demoFailed rfl demoJob1 0 rfl rfl (by decide)
      demoListingLater (fun _ => oneStream)
      [⟨str "job-1", some 100⟩, ⟨str "job-2", some 250⟩] 100 (by decide) (by decide)
      (by decide)⟩

end LokiTracker
